import Mathlib

set_option maxRecDepth 1000000
set_option maxHeartbeats 1000000

/-!
Shallow embedding of `src/pygit.py` (object store, index codec, status engine).

Modelling conventions:
* Python `bytes` values are `List Nat` (each element a byte value).
* Python `str` values are `PyStr := List Nat` (the sequence of code points);
  `pystr` converts a Lean string literal.  `bytes.encode` / `bytes.decode`
  (UTF-8) are modelled as the identity on code points, which is exact for the
  ASCII strings the program produces (object-kind names, decimal lengths,
  hex digests); `pyDecode` rejects non-ASCII bytes.
* Filesystem paths are component lists (`Path := List PyStr`), mirroring the
  source's exclusive use of `os.path.join` on components.  The filesystem is
  an explicit state `FS` (directories plus a file association list).
* `zlib.compress` / `zlib.decompress` are external collaborators and appear
  as function parameters `zc` / `zd`; theorems that need the zlib round-trip
  assume `zd (zc x) = x` at the relevant input.
* Every `raise`/failed-`assert` site is a constructor of `Err`.
-/

namespace Pygit

/-- Python strings as sequences of Unicode code points. -/
abbrev PyStr := List Nat

/-- Convert a Lean string literal to its code-point sequence. -/
def pystr (s : String) : PyStr := s.data.map Char.toNat

/-- The `'.git'` path component. -/
def gitS : PyStr := pystr ".git"

/-- The `'objects'` path component. -/
def objectsS : PyStr := pystr "objects"

/-- The `'blob'` object kind. -/
def blobS : PyStr := pystr "blob"

/-! ## SHA-1 (`hashlib.sha1`), big-endian byte packing, hex encoding -/

/-- Truncate to a 32-bit word. -/
def w32 (x : Nat) : Nat := x % 4294967296

/-- The 32-bit left rotation (arguments below 2^32). -/
def rotl (s x : Nat) : Nat := w32 (x * 2 ^ s) ||| x / 2 ^ (32 - s)

/-- Big-endian bytes: `k` bytes of `n` (most significant byte first). -/
def beBytes : Nat → Nat → List Nat
  | 0, _ => []
  | k + 1, n => beBytes k (n / 256) ++ [n % 256]

/-- Group a byte list into big-endian 32-bit words (dropping an incomplete
tail, which never occurs on the 64-byte chunks this is applied to). -/
def toWordsBE : List Nat → List Nat
  | a :: b :: c :: d :: rest => (((a * 256 + b) * 256 + c) * 256 + d) :: toWordsBE rest
  | _ => []

/-- SHA-1 round function. -/
def sha1f (i b c d : Nat) : Nat :=
  if i < 20 then (b &&& c) ||| ((b ^^^ 4294967295) &&& d)
  else if i < 40 then b ^^^ c ^^^ d
  else if i < 60 then (b &&& c) ||| (b &&& d) ||| (c &&& d)
  else b ^^^ c ^^^ d

/-- SHA-1 round constant. -/
def sha1k (i : Nat) : Nat :=
  if i < 20 then 1518500249
  else if i < 40 then 1859775393
  else if i < 60 then 2400959708
  else 3395469782

/-- Extend the 16 message words by `n` further schedule words
(`w[i] = rotl 1 (w[i-3] xor w[i-8] xor w[i-14] xor w[i-16])`). -/
def sha1extend : Nat → List Nat → List Nat
  | 0, ws => ws
  | n + 1, ws =>
    let ws' := sha1extend n ws
    ws' ++ [rotl 1 ((ws'.getD (ws'.length - 3) 0) ^^^ (ws'.getD (ws'.length - 8) 0)
      ^^^ (ws'.getD (ws'.length - 14) 0) ^^^ (ws'.getD (ws'.length - 16) 0))]

/-- The 80 compression rounds, consuming `(round index, schedule word)` pairs. -/
def sha1rounds : List (Nat × Nat) → Nat × Nat × Nat × Nat × Nat → Nat × Nat × Nat × Nat × Nat
  | [], st => st
  | (i, wi) :: rest, (a, b, c, d, e) =>
    sha1rounds rest (w32 (rotl 5 a + sha1f i b c d + e + sha1k i + wi), a, rotl 30 b, c, d)

/-- Compress one 64-byte chunk into the running hash state. -/
def sha1compress (h : Nat × Nat × Nat × Nat × Nat) (chunk : List Nat) :
    Nat × Nat × Nat × Nat × Nat :=
  let (h0, h1, h2, h3, h4) := h
  let (a, b, c, d, e) := sha1rounds (sha1extend 64 (toWordsBE chunk)).enum (h0, h1, h2, h3, h4)
  (w32 (h0 + a), w32 (h1 + b), w32 (h2 + c), w32 (h3 + d), w32 (h4 + e))

/-- Split a list into 64-element chunks (fuel-driven for structural recursion). -/
def chunks64 : Nat → List Nat → List (List Nat)
  | 0, _ => []
  | _ + 1, [] => []
  | fuel + 1, l => l.take 64 :: chunks64 fuel (l.drop 64)

/-- SHA-1 padding: append `0x80`, zero bytes to 56 mod 64, then the 64-bit
big-endian bit length. -/
def sha1pad (msg : List Nat) : List Nat :=
  msg ++ [128] ++ List.replicate ((119 - msg.length % 64) % 64) 0 ++ beBytes 8 (msg.length * 8)

/-- The final SHA-1 state after absorbing the padded message. -/
def sha1final (msg : List Nat) : Nat × Nat × Nat × Nat × Nat :=
  let padded := sha1pad msg
  (chunks64 padded.length padded).foldl sha1compress
    (1732584193, 4023233417, 2562383102, 271733878, 3285377520)

/-- The 20-byte SHA-1 digest of a byte sequence (`hashlib.sha1(..).digest()`). -/
def sha1bytes (msg : List Nat) : List Nat :=
  beBytes 4 (sha1final msg).1 ++ beBytes 4 (sha1final msg).2.1 ++
    beBytes 4 (sha1final msg).2.2.1 ++ beBytes 4 (sha1final msg).2.2.2.1 ++
    beBytes 4 (sha1final msg).2.2.2.2

/-- One lowercase hex digit. -/
def hexDigit (d : Nat) : Nat := if d < 10 then 48 + d else 87 + d

/-- Lowercase hex string of a byte sequence (`bytes.hex()` / `.hexdigest()`). -/
def bytesToHex : List Nat → PyStr
  | [] => []
  | b :: rest => hexDigit (b / 16) :: hexDigit (b % 16) :: bytesToHex rest

/-- Python `hashlib.sha1(msg).hexdigest()`. -/
def sha1hex (msg : List Nat) : PyStr := bytesToHex (sha1bytes msg)

/-! ## Decimal formatting (`'{}'.format(n)`) and parsing (`int(s)`) -/

/-- Accumulator loop producing the decimal digits of `n` (as ASCII code
points) in front of `acc`; `fuel` exceeds `n`, so it never runs out. -/
def natDigitsAux : Nat → Nat → List Nat → List Nat
  | 0, _, acc => acc
  | fuel + 1, n, acc =>
    if n < 10 then (48 + n) :: acc
    else natDigitsAux fuel (n / 10) ((48 + n % 10) :: acc)

/-- The decimal representation of `n`, as ASCII code points
(Python `'{}'.format(n)` for a non-negative `int`). -/
def natDigits (n : Nat) : List Nat := natDigitsAux (n + 1) n []

/-- Python `int(s)` restricted to non-empty all-digit strings, the only shape
produced by the program's own headers; anything else raises `ValueError`. -/
def pyInt (s : PyStr) : Option Nat :=
  if s ≠ [] ∧ s.all (fun b => 48 ≤ b ∧ b ≤ 57) then
    some (s.foldl (fun acc b => acc * 10 + (b - 48)) 0)
  else none

/-! ## `str.split()`, `bytes.decode()`, `bytes.index` -/

/-- Python whitespace for no-argument `str.split()`. -/
def isPySpace (b : Nat) : Bool := b = 32 || b = 9 || b = 10 || b = 11 || b = 12 || b = 13

/-- Worker for `str.split()`: `cur` holds the current word, reversed. -/
def pySplitAux : List Nat → List Nat → List PyStr
  | [], cur => if cur.isEmpty then [] else [cur.reverse]
  | b :: rest, cur =>
    if isPySpace b then
      if cur.isEmpty then pySplitAux rest []
      else cur.reverse :: pySplitAux rest []
    else pySplitAux rest (b :: cur)

/-- Python `str.split()` with no arguments: split on whitespace runs,
discarding empty words. -/
def pySplit (s : PyStr) : List PyStr := pySplitAux s []

/-- Python `bytes.decode()`: UTF-8 decoding, modelled on its ASCII fragment (the
only bytes the program decodes); non-ASCII input is reported as a decode
error. -/
def pyDecode (l : List Nat) : Option PyStr :=
  if l.all (· < 128) then some l else none

/-- Worker for `bytes.index(b, start := i)`: index of the first occurrence. -/
def byteIndexAux (b : Nat) : List Nat → Nat → Option Nat
  | [], _ => none
  | x :: rest, i => if x = b then some i else byteIndexAux b rest (i + 1)

/-- Python `bytes.index(b)`: position of the first occurrence of byte `b`
(`none` models the `ValueError` raised when absent). -/
def byteIndex (l : List Nat) (b : Nat) : Option Nat := byteIndexAux b l 0

/-! ## Error kinds

One constructor per `raise` / failing-`assert` site reached by the modelled
functions, plus `IndexTruncated`, which the specification names but which no
site in `read_index` ever produces. -/

inductive Err where
  /-- The `ValueError('hash prefix must be 2 or more characters')` in `find_object`. -/
  | InvalidPrefixErr
  /-- The `ValueError('object ... not found')` in `find_object`. -/
  | NotFound
  /-- The `ValueError('multiple objects ... with prefix ...')` in `find_object`. -/
  | AmbiguousAddress
  /-- A `FileNotFoundError` from `os.listdir` on a missing directory or
  `open` on a missing file. -/
  | FileNotFoundError
  /-- The `ValueError('path value null')` in `read_object`. -/
  | PathValueNull
  /-- The `ValueError` from `full_data.index(b'\x00')` when no NUL byte exists. -/
  | ValueErrorNoNul
  /-- The `UnicodeDecodeError` from `header.decode()`. -/
  | UnicodeDecodeErr
  /-- The `ValueError` unpacking `header.decode().split()` into two names. -/
  | UnpackError
  /-- The `ValueError` from `int(size_str)` on a non-numeric string. -/
  | IntParseError
  /-- The `AssertionError('expected size ..., got ... bytes')` in `read_object`. -/
  | SizeAssertError
  /-- The `AssertionError('invalid index checksum')` in `read_index`. -/
  | IndexChecksumError
  /-- The `struct.error` unpacking the 12-byte header from fewer bytes. -/
  | StructError
  /-- The `AssertionError('invalid index signature ...')` in `read_index`. -/
  | IndexSignatureError
  /-- The `AssertionError('unknown index version ...')` in `read_index`. -/
  | UnsupportedIndexVersion
  /-- The `TypeError` from `entry_data.index('\x00', field_end)`: the source
  passes a `str` pattern to `bytes.index`, which Python 3 always rejects. -/
  | TypeErrorStrOnBytes
  /-- The `AssertionError` from `assert num_entries == len(entries)`. -/
  | IndexCountMismatch
  /-- Named by the specification for truncated entries; `read_index` has no
  site producing it. -/
  | IndexTruncated
deriving DecidableEq

/-! ## Filesystem state -/

/-- A filesystem path as the list of components fed to `os.path.join`. -/
abbrev Path := List PyStr

/-- Filesystem state: the set of existing directories and a path-indexed
association list of file contents. -/
structure FS where
  dirs : List Path
  files : List (Path × List Nat)
deriving DecidableEq

/-- Python `os.path.exists`: true for an existing file or directory. -/
def FS.exists (fs : FS) (p : Path) : Bool :=
  (fs.files.lookup p).isSome || fs.dirs.contains p

/-- Model of `read_file` (`open(path, 'rb').read()`): missing files raise
`FileNotFoundError`. -/
def FS.readFile (fs : FS) (p : Path) : Except Err (List Nat) :=
  match fs.files.lookup p with
  | some v => .ok v
  | none => .error .FileNotFoundError

/-- The name of `p` when it is an immediate child of directory `d`. -/
def childName (d p : Path) : Option PyStr :=
  if p.dropLast = d then p.getLast? else none

/-- Python `os.listdir`: names of the immediate children of `d` (files and
subdirectories), or `FileNotFoundError` when `d` does not exist. -/
def FS.listdir (fs : FS) (d : Path) : Except Err (List PyStr) :=
  if fs.dirs.contains d then
    .ok (((fs.files.map Prod.fst).filterMap (childName d) ++ fs.dirs.filterMap (childName d)).dedup)
  else .error .FileNotFoundError

/-- Record directory `q` as existing (no-op when it already does). -/
def addDirStep (ds : List Path) (q : Path) : List Path :=
  if ds.contains q then ds else ds ++ [q]

/-- Python `os.makedirs(p, exist_ok=True)`: create every missing prefix of `p`. -/
def FS.makedirs (fs : FS) (p : Path) : FS :=
  { fs with
    dirs := (List.range p.length).foldl (fun ds i => addDirStep ds (p.take (i + 1))) fs.dirs }

/-! ## Object store (`hash_object`, `find_object`, `read_object`) -/

/-- A well-formed loose-object store never contains a file
`.git/objects/<d>/<name>` whose `name` is not the 38-character tail of a
40-character hex address. -/
def objNameOK (p : Path) : Bool :=
  match p with
  | [a, b, _, nm] => !(decide (a = gitS) && decide (b = objectsS)) || decide (nm.length = 38)
  | _ => true

/-- A well-formed store has no subdirectories inside a two-character object
directory. -/
def noObjSubdir (p : Path) : Bool :=
  match p with
  | [a, b, _, _] => !(decide (a = gitS) && decide (b = objectsS))
  | _ => true

/-- Store well-formedness: every loose-object file name has 38 characters
and two-character object directories contain no subdirectories. -/
def FS.storeOK (fs : FS) : Bool :=
  fs.files.all (fun pr => objNameOK pr.1) && fs.dirs.all noObjSubdir

/-- The header `'{} {}'.format(obj_type, len(data)).encode()`: the object header bytes
(UTF-8 encoding modelled as the identity on the ASCII code points used). -/
def objHeader (obj_type : PyStr) (data : List Nat) : List Nat :=
  obj_type ++ 32 :: natDigits data.length

/-- The buffer `header + b'\x00' + data`. -/
def fullData (obj_type : PyStr) (data : List Nat) : List Nat :=
  objHeader obj_type data ++ 0 :: data

/-- The hex SHA-1 address `hash_object` computes for `(obj_type, data)`. -/
def hashObjectSha1 (obj_type : PyStr) (data : List Nat) : PyStr :=
  sha1hex (fullData obj_type data)

/-- Python `os.path.join('.git', 'objects', sha1[:2], sha1[2:])`. -/
def objPath (sha1 : PyStr) : Path := [gitS, objectsS, sha1.take 2, sha1.drop 2]

/-- Model of `hash_object(data, obj_type, write)`: compute the address and, when
`write` is set and no record exists at the target path, create the parent
directories and store the `zc`-compressed full data.  Returns the address
and the resulting filesystem. -/
def hash_object (zc : List Nat → List Nat) (fs : FS) (data : List Nat) (obj_type : PyStr)
    (write : Bool) : PyStr × FS :=
  let full_data := fullData obj_type data
  let sha1 := sha1hex full_data
  if write then
    let path := objPath sha1
    if fs.exists path then (sha1, fs)
    else
      let fs' := fs.makedirs path.dropLast
      (sha1, { fs' with files := (path, zc full_data) :: fs'.files })
  else (sha1, fs)

/-- Model of `find_object(sha1_prefix)`: resolve a hash prefix to the stored object's
path, reporting too-short prefixes, zero matches and multiple matches; a
missing two-character directory surfaces `os.listdir`'s `FileNotFoundError`. -/
def find_object (fs : FS) (sha1pre : PyStr) : Except Err Path :=
  if sha1pre.length < 2 then .error .InvalidPrefixErr
  else
    let obj_dir : Path := [gitS, objectsS, sha1pre.take 2]
    let rest := sha1pre.drop 2
    match fs.listdir obj_dir with
    | .error e => .error e
    | .ok names =>
      match names.filter (fun nm => rest.isPrefixOf nm) with
      | [] => .error .NotFound
      | [x] => .ok (obj_dir ++ [x])
      | _ :: _ :: _ => .error .AmbiguousAddress

/-- Model of `read_object(sha1_prefix)`: locate, read, `zd`-decompress and decode a
stored object, returning its `(obj_type, data)`. -/
def read_object (zd : List Nat → List Nat) (fs : FS) (sha1pre : PyStr) :
    Except Err (PyStr × List Nat) :=
  match find_object fs sha1pre with
  | .error e => .error e
  | .ok path =>
    if path.isEmpty then .error .PathValueNull
    else
      match fs.readFile path with
      | .error e => .error e
      | .ok compressed =>
        let full_data := zd compressed
        match byteIndex full_data 0 with
        | none => .error .ValueErrorNoNul
        | some nul_index =>
          let header := full_data.take nul_index
          match pyDecode header with
          | none => .error .UnicodeDecodeErr
          | some hstr =>
            match pySplit hstr with
            | [obj_type, size_str] =>
              match pyInt size_str with
              | none => .error .IntParseError
              | some size =>
                let data := full_data.drop (nul_index + 1)
                if size = data.length then .ok (obj_type, data)
                else .error .SizeAssertError
            | _ => .error .UnpackError

/-! ## Index codec (`read_index`) -/

/-- One parsed entry of `.git/index` (the `IndexEntry` namedtuple). -/
structure IndexEntry where
  ctime_s : Nat
  ctime_n : Nat
  mtime_s : Nat
  mtime_n : Nat
  dev : Nat
  ino : Nat
  mode : Nat
  uid : Nat
  gid : Nat
  size : Nat
  sha1 : List Nat
  flags : Nat
  path : PyStr
deriving DecidableEq

/-- Big-endian 32-bit integer at byte offset `i` of `data`. -/
def be32at (data : List Nat) (i : Nat) : Nat :=
  ((data.drop i).take 4).foldl (fun acc b => acc * 256 + b) 0

/-- The entry-parsing loop of `read_index`.  Its guard is
`idx + 62 < len(entry_data)`; whenever the body runs, the 62-byte field
unpack succeeds (the guard guarantees the bytes) and the next statement,
`entry_data.index('\x00', field_end)`, unconditionally raises `TypeError`
because the pattern is a `str`, not `bytes`.  So the loop either exits
immediately or fails on its first iteration. -/
def parseEntriesLoop (entry_data : List Nat) (idx : Nat) (acc : List IndexEntry) :
    Except Err (List IndexEntry) :=
  if idx + 62 < entry_data.length then .error .TypeErrorStrOnBytes
  else .ok acc.reverse

/-- The body of `read_index` applied to the raw bytes of `.git/index`:
checksum assert, `struct.unpack('!4sLL', data[:12])`, signature and version
asserts, the entry loop over `data[12:-20]`, and the final count assert. -/
def read_indexBytes (data : List Nat) : Except Err (List IndexEntry) :=
  if sha1bytes (data.take (data.length - 20)) ≠ data.drop (data.length - 20) then
    .error .IndexChecksumError
  else if data.length < 12 then .error .StructError
  else
    let signature := data.take 4
    let version := be32at data 4
    let num_entries := be32at data 8
    if signature ≠ pystr "DIRC" then .error .IndexSignatureError
    else if version ≠ 2 then .error .UnsupportedIndexVersion
    else
      let entry_data := (data.take (data.length - 20)).drop 12
      match parseEntriesLoop entry_data 0 [] with
      | .error e => .error e
      | .ok entries =>
        if num_entries = entries.length then .ok entries
        else .error .IndexCountMismatch

/-- Model of `read_index()`: read `.git/index`, treating a missing file as the empty
entry list (`except FileNotFoundError: return []`). -/
def read_index (fs : FS) : Except Err (List IndexEntry) :=
  match fs.readFile [gitS, pystr "index"] with
  | .error .FileNotFoundError => .ok []
  | .error e => .error e
  | .ok data => read_indexBytes data

/-! ## Status engine (`get_status`)

`get_status` walks the working tree and reads the index itself; the walk
result and the parsed entries are factored out here as the *working-tree
snapshot* (an association list of normalized path to file content) and the
*entry list*, which is exactly how the specification states the operation. -/

/-- Python `<` on strings: lexicographic comparison of code points. -/
def strLt : PyStr → PyStr → Bool
  | [], [] => false
  | [], _ :: _ => true
  | _ :: _, [] => false
  | a :: as', b :: bs' => if a < b then true else if b < a then false else strLt as' bs'

/-- The (total) order `sorted` uses, expressed from `strLt`. -/
def strLe (a b : PyStr) : Bool := ! strLt b a

/-- Insert into a `strLe`-sorted list, keeping it sorted. -/
def insertSorted (x : PyStr) : List PyStr → List PyStr
  | [] => [x]
  | y :: ys => if strLe x y then x :: y :: ys else y :: insertSorted x ys

/-- Python `sorted` on strings (insertion sort; the built-in sort is stable,
but on the duplicate-free inputs used here only the order matters). -/
def sortStrs : List PyStr → List PyStr
  | [] => []
  | x :: xs => insertSorted x (sortStrs xs)

/-- The lookup `{e.path: e for e in entries}[p]`: a Python dict comprehension keeps the
last entry for a duplicated key, hence the reversed search. -/
def entriesByPath (entries : List IndexEntry) (p : PyStr) : Option IndexEntry :=
  entries.reverse.find? (fun e => e.path = p)

/-- The value `entries_by_path[p].sha1.hex()` (the empty string when `p` is absent,
a case the comprehensions never reach). -/
def recordedHex (entries : List IndexEntry) (p : PyStr) : PyStr :=
  match entriesByPath entries p with
  | some e => bytesToHex e.sha1
  | none => []

/-- Model of `read_file(p)` through the snapshot: the content recorded for path `p`. -/
def treeContent (tree : List (PyStr × List Nat)) (p : PyStr) : List Nat :=
  match tree.find? (fun pr => pr.1 = p) with
  | some pr => pr.2
  | none => []

/-- Model of `get_status()` on a snapshot: the `(changed, new, deleted)` triple of
sorted path lists. -/
def get_status (entries : List IndexEntry) (tree : List (PyStr × List Nat)) :
    List PyStr × List PyStr × List PyStr :=
  let paths := (tree.map Prod.fst).dedup
  let entry_paths := (entries.map IndexEntry.path).dedup
  let changed := paths.filter (fun p =>
    entry_paths.contains p &&
      decide (hashObjectSha1 blobS (treeContent tree p) ≠ recordedHex entries p))
  let newPaths := paths.filter (fun p => ! entry_paths.contains p)
  let deleted := entry_paths.filter (fun p => ! paths.contains p)
  (sortStrs changed, sortStrs newPaths, sortStrs deleted)

/-- The `changed` comprehension with its `hash_object(.., write=False)` calls
made explicit state transformers, threading the filesystem through each call
exactly as the source's evaluation order does. -/
def changedS (zc : List Nat → List Nat) (fs : FS) (entries : List IndexEntry)
    (tree : List (PyStr × List Nat)) : List PyStr → List PyStr × FS
  | [] => ([], fs)
  | p :: rest =>
    let r1 := hash_object zc fs (treeContent tree p) blobS false
    let r2 := changedS zc r1.2 entries tree rest
    if r1.1 ≠ recordedHex entries p then (p :: r2.1, r2.2) else (r2.1, r2.2)

/-- Model of `get_status()` with the filesystem state threaded through every
`hash_object` call (each made with `write=False`). -/
def get_statusS (zc : List Nat → List Nat) (fs : FS) (entries : List IndexEntry)
    (tree : List (PyStr × List Nat)) : (List PyStr × List PyStr × List PyStr) × FS :=
  let paths := (tree.map Prod.fst).dedup
  let entry_paths := (entries.map IndexEntry.path).dedup
  let r := changedS zc fs entries tree (paths.filter (entry_paths.contains ·))
  let newPaths := paths.filter (fun p => ! entry_paths.contains p)
  let deleted := entry_paths.filter (fun p => ! paths.contains p)
  ((sortStrs r.1, sortStrs newPaths, sortStrs deleted), r.2)

/-! ## Basic length and bookkeeping lemmas -/

theorem length_beBytes (k n : Nat) : (beBytes k n).length = k := by
  induction k generalizing n with
  | zero => rfl
  | succ k ih => simp [beBytes, ih]

theorem length_sha1bytes (msg : List Nat) : (sha1bytes msg).length = 20 := by
  simp [sha1bytes, length_beBytes]

theorem length_bytesToHex (l : List Nat) : (bytesToHex l).length = 2 * l.length := by
  induction l with
  | nil => rfl
  | cons b rest ih => simp [bytesToHex, ih]; ring

theorem length_sha1hex (msg : List Nat) : (sha1hex msg).length = 40 := by
  simp [sha1hex, length_bytesToHex, length_sha1bytes]

theorem lookup_none_countP (l : List (Path × List Nat)) (k : Path)
    (h : l.lookup k = none) : l.countP (fun pr => decide (pr.1 = k)) = 0 := by
  induction l with
  | nil => rfl
  | cons a rest ih =>
    rw [List.countP_cons]
    cases hb : k == a.1 with
    | true =>
      exfalso
      rw [show (a :: rest).lookup k = some a.2 by
        rcases a with ⟨k', v⟩
        simp only [List.lookup]
        rw [hb]] at h
      exact Option.noConfusion h
    | false =>
      have hrest : rest.lookup k = none := by
        rcases a with ⟨k', v⟩
        simp only [List.lookup] at h
        rw [hb] at h
        exact h
      have hne : ¬ a.1 = k := fun he => by
        rw [he] at hb
        simp at hb
      simp [ih hrest, hne]

theorem lookup_cons_self (l : List (Path × List Nat)) (k : Path) (v : List Nat) :
    ((k, v) :: l).lookup k = some v := by
  simp [List.lookup]

theorem hash_object_fst (zc : List Nat → List Nat) (fs : FS) (d : List Nat) (t : PyStr)
    (w : Bool) : (hash_object zc fs d t w).1 = sha1hex (fullData t d) := by
  cases w <;> simp [hash_object, apply_ite]

/-! ## Claim C8 -/

/-- C8: storing the empty payload as a blob returns exactly the address
`e69de29bb2d1d6434b8b29ae775ad8c2e48c5391`, and in general the address
returned by `hash_object` is the SHA-1 hex digest of the header
`'<kind> <len(payload)>'` plus a NUL byte plus the payload. -/
theorem hash_object_empty_blob (zc : List Nat → List Nat) (fs : FS)
    (data : List Nat) (obj_type : PyStr) (w : Bool) :
    (hash_object zc fs data obj_type w).1 = sha1hex (fullData obj_type data) ∧
    (hash_object zc fs [] blobS w).1 = pystr "e69de29bb2d1d6434b8b29ae775ad8c2e48c5391" :=
  ⟨hash_object_fst zc fs data obj_type w,
    (hash_object_fst zc fs [] blobS w).trans (by decide)⟩

/-! ## Claim C9 -/

/-- C9: when the index file `.git/index` does not exist, `read_index`
returns the empty entry list instead of an error. -/
theorem read_index_missing_file (fs : FS)
    (h : fs.files.lookup [gitS, pystr "index"] = none) :
    read_index fs = .ok [] := by
  simp [read_index, FS.readFile, h]

/-- Concrete instance of `read_index_missing_file` at the empty filesystem. -/
theorem read_index_missing_file_witness : read_index ⟨[], []⟩ = .ok [] :=
  read_index_missing_file ⟨[], []⟩ rfl

/-! ## Claim C10 -/

theorem changedS_spec (zc : List Nat → List Nat) (fs : FS) (entries : List IndexEntry)
    (tree : List (PyStr × List Nat)) (cands : List PyStr) :
    changedS zc fs entries tree cands =
      (cands.filter (fun p =>
        decide (hashObjectSha1 blobS (treeContent tree p) ≠ recordedHex entries p)), fs) := by
  induction cands with
  | nil => rfl
  | cons p rest ih =>
    rw [changedS]
    rw [show hash_object zc fs (treeContent tree p) blobS false =
      (hashObjectSha1 blobS (treeContent tree p), fs) from rfl]
    dsimp only
    rw [ih]
    by_cases hne : hashObjectSha1 blobS (treeContent tree p) ≠ recordedHex entries p
    · simp [hne, List.filter_cons]
    · simp [hne, List.filter_cons]

/-- C10: `hash_object` with `write=False` performs no filesystem write and
returns the same address a writing call computes; `get_status`, all of whose
hashing uses `write=False`, therefore leaves the filesystem unchanged and
computes the same result as its pure description. -/
theorem hash_object_nowrite_frame (zc : List Nat → List Nat) (fs : FS)
    (data : List Nat) (obj_type : PyStr) (entries : List IndexEntry)
    (tree : List (PyStr × List Nat)) :
    hash_object zc fs data obj_type false = (sha1hex (fullData obj_type data), fs) ∧
    (hash_object zc fs data obj_type false).1 = (hash_object zc fs data obj_type true).1 ∧
    (get_statusS zc fs entries tree).2 = fs ∧
    (get_statusS zc fs entries tree).1 = get_status entries tree := by
  refine ⟨rfl, ?_, ?_, ?_⟩
  · rw [hash_object_fst, hash_object_fst]
  · simp only [get_statusS]
    rw [changedS_spec]
  · simp only [get_statusS, get_status]
    rw [changedS_spec]
    dsimp only
    rw [List.filter_filter]
    congr 1
    congr 1
    apply List.filter_congr
    intro a _
    rw [Bool.and_comm]

/-! ## Claim C7 -/

/-- C7: repeated writing calls of `hash_object` return the same computed
address every time; the second call leaves the filesystem unchanged; and a
write to a fresh address creates exactly one on-disk record for it. -/
theorem hash_object_idempotent (zc : List Nat → List Nat) (fs : FS)
    (data : List Nat) (obj_type : PyStr) :
    (hash_object zc fs data obj_type true).1 = sha1hex (fullData obj_type data) ∧
    hash_object zc (hash_object zc fs data obj_type true).2 data obj_type true =
      ((hash_object zc fs data obj_type true).1, (hash_object zc fs data obj_type true).2) ∧
    (fs.exists (objPath (sha1hex (fullData obj_type data))) = false →
      (hash_object zc fs data obj_type true).2.files.countP
        (fun pr => decide (pr.1 = objPath (sha1hex (fullData obj_type data)))) = 1) := by
  cases hex : fs.exists (objPath (sha1hex (fullData obj_type data))) with
  | true =>
    have h1 : hash_object zc fs data obj_type true = (sha1hex (fullData obj_type data), fs) := by
      unfold hash_object
      dsimp only
      rw [hex]
      simp
    rw [h1]
    exact ⟨rfl, h1, fun hc => absurd hc (by decide)⟩
  | false =>
    have h1 : hash_object zc fs data obj_type true =
        (sha1hex (fullData obj_type data),
          { fs.makedirs (objPath (sha1hex (fullData obj_type data))).dropLast with
            files := (objPath (sha1hex (fullData obj_type data)),
              zc (fullData obj_type data)) :: fs.files }) := by
      unfold hash_object
      dsimp only
      rw [hex]
      simp
      rfl
    rw [h1]
    refine ⟨rfl, ?_, ?_⟩
    · have he2 : FS.exists
          { fs.makedirs (objPath (sha1hex (fullData obj_type data))).dropLast with
            files := (objPath (sha1hex (fullData obj_type data)),
              zc (fullData obj_type data)) :: fs.files }
          (objPath (sha1hex (fullData obj_type data))) = true := by
        unfold FS.exists
        rw [lookup_cons_self]
        rfl
      unfold hash_object
      dsimp only
      rw [he2]
      simp
    · intro _
      have hlk : fs.files.lookup (objPath (sha1hex (fullData obj_type data))) = none := by
        unfold FS.exists at hex
        rcases hl : fs.files.lookup (objPath (sha1hex (fullData obj_type data))) with _ | v
        · rfl
        · rw [hl] at hex
          simp at hex
      rw [List.countP_cons]
      simp [lookup_none_countP _ _ hlk]

/-- Concrete instance of `hash_object_idempotent`: writing the empty blob
twice into an empty filesystem stores exactly one record and returns the
same address both times. -/
theorem hash_object_idempotent_witness :
    (hash_object id ⟨[], []⟩ [] blobS true).1 = sha1hex (fullData blobS []) ∧
    hash_object id (hash_object id ⟨[], []⟩ [] blobS true).2 [] blobS true =
      ((hash_object id ⟨[], []⟩ [] blobS true).1, (hash_object id ⟨[], []⟩ [] blobS true).2) ∧
    (hash_object id ⟨[], []⟩ [] blobS true).2.files.countP
      (fun pr => decide (pr.1 = objPath (sha1hex (fullData blobS [])))) = 1 := by
  obtain ⟨h1, h2, h3⟩ := hash_object_idempotent id ⟨[], []⟩ [] blobS
  exact ⟨h1, h2, h3 (by decide)⟩

/-! ## Claims C5 and C6 -/

/-- The candidate names `find_object` considers for a prefix: the listing of
the two-character directory filtered by the remaining prefix characters
(empty when that directory does not exist). -/
def candidatesOf (fs : FS) (pre : PyStr) : List PyStr :=
  match fs.listdir [gitS, objectsS, pre.take 2] with
  | .ok names => names.filter (fun nm => (pre.drop 2).isPrefixOf nm)
  | .error _ => []

theorem find_object_eq_match (fs : FS) (pre : PyStr) (h2 : 2 ≤ pre.length)
    (hc : fs.dirs.contains [gitS, objectsS, pre.take 2] = true) :
    find_object fs pre =
      (match candidatesOf fs pre with
        | [] => .error .NotFound
        | [x] => .ok ([gitS, objectsS, pre.take 2] ++ [x])
        | _ :: _ :: _ => .error .AmbiguousAddress) := by
  unfold find_object candidatesOf FS.listdir
  dsimp only
  rw [if_neg (by omega), hc]
  rfl

/-- C5 (amended): `find_object` fails with `InvalidPrefix` on prefixes
shorter than 2 characters; when the two-character object directory exists it
fails with `AmbiguousAddress` on 2+ matches, fails with `NotFound` on zero
matches, and returns the single matching object's path on exactly one match.
(When the directory does not exist, the zero-match case instead surfaces
`FileNotFoundError`; see the C6 theorems.) -/
theorem find_object_resolution_cases (fs : FS) (pre : PyStr) (nm : PyStr) :
    (pre.length < 2 → find_object fs pre = .error .InvalidPrefixErr) ∧
    (2 ≤ pre.length → fs.dirs.contains [gitS, objectsS, pre.take 2] = true →
      2 ≤ (candidatesOf fs pre).length → find_object fs pre = .error .AmbiguousAddress) ∧
    (2 ≤ pre.length → fs.dirs.contains [gitS, objectsS, pre.take 2] = true →
      candidatesOf fs pre = [] → find_object fs pre = .error .NotFound) ∧
    (2 ≤ pre.length → fs.dirs.contains [gitS, objectsS, pre.take 2] = true →
      candidatesOf fs pre = [nm] →
      find_object fs pre = .ok ([gitS, objectsS, pre.take 2] ++ [nm])) := by
  refine ⟨?_, ?_, ?_, ?_⟩
  · intro h1
    unfold find_object
    rw [if_pos h1]
  · intro h2 hc hlen
    rw [find_object_eq_match fs pre h2 hc]
    rcases hm : candidatesOf fs pre with _ | ⟨x, _ | ⟨y, rest⟩⟩
    · rw [hm] at hlen; simp at hlen
    · rw [hm] at hlen; simp at hlen
    · rfl
  · intro h2 hc hm
    rw [find_object_eq_match fs pre h2 hc, hm]
  · intro h2 hc hm
    rw [find_object_eq_match fs pre h2 hc, hm]

/-- Concrete instances of `find_object_resolution_cases`: a store holding
objects `aabb1` and `aabb2` resolves prefixes of each length class as the
amended claim states. -/
theorem find_object_resolution_cases_witness :
    find_object
      ⟨[[gitS, objectsS, pystr "aa"]],
        [([gitS, objectsS, pystr "aa", pystr "bb1"], []),
          ([gitS, objectsS, pystr "aa", pystr "bb2"], [])]⟩ (pystr "a") =
      .error .InvalidPrefixErr ∧
    find_object
      ⟨[[gitS, objectsS, pystr "aa"]],
        [([gitS, objectsS, pystr "aa", pystr "bb1"], []),
          ([gitS, objectsS, pystr "aa", pystr "bb2"], [])]⟩ (pystr "aabb") =
      .error .AmbiguousAddress ∧
    find_object
      ⟨[[gitS, objectsS, pystr "aa"]],
        [([gitS, objectsS, pystr "aa", pystr "bb1"], []),
          ([gitS, objectsS, pystr "aa", pystr "bb2"], [])]⟩ (pystr "aacc") =
      .error .NotFound ∧
    find_object
      ⟨[[gitS, objectsS, pystr "aa"]],
        [([gitS, objectsS, pystr "aa", pystr "bb1"], []),
          ([gitS, objectsS, pystr "aa", pystr "bb2"], [])]⟩ (pystr "aabb1") =
      .ok [gitS, objectsS, pystr "aa", pystr "bb1"] := by
  refine ⟨(find_object_resolution_cases _ (pystr "a") []).1 (by decide),
    (find_object_resolution_cases _ (pystr "aabb") []).2.1 (by decide) (by decide) (by decide),
    (find_object_resolution_cases _ (pystr "aacc") []).2.2.1 (by decide) (by decide) (by decide),
    ?_⟩
  have h := (find_object_resolution_cases
    ⟨[[gitS, objectsS, pystr "aa"]],
      [([gitS, objectsS, pystr "aa", pystr "bb1"], []),
        ([gitS, objectsS, pystr "aa", pystr "bb2"], [])]⟩
    (pystr "aabb1") (pystr "bb1")).2.2.2 (by decide) (by decide) (by decide)
  exact h.trans (by rfl)

/-- C5 counterexample: in the empty filesystem no stored object matches the
prefix "ab", yet `find_object` does not fail with `NotFound` — the missing
directory's `FileNotFoundError` escapes instead. -/
theorem find_object_notfound_cex :
    candidatesOf ⟨[], []⟩ (pystr "ab") = [] ∧
    find_object ⟨[], []⟩ (pystr "ab") = .error .FileNotFoundError ∧
    find_object ⟨[], []⟩ (pystr "ab") ≠ .error .NotFound := by
  refine ⟨rfl, rfl, fun h => ?_⟩
  rw [show find_object ⟨[], []⟩ (pystr "ab") = .error .FileNotFoundError from rfl] at h
  exact Err.noConfusion (Except.error.inj h)

/-- C6 (amended): on a prefix of length at least 2 whose two-character
directory does not exist, `find_object` fails with the underlying
filesystem `FileNotFoundError`, not with `NotFound`. -/
theorem find_object_missing_dir (fs : FS) (pre : PyStr) (h2 : 2 ≤ pre.length)
    (hd : fs.dirs.contains [gitS, objectsS, pre.take 2] = false) :
    find_object fs pre = .error .FileNotFoundError := by
  unfold find_object FS.listdir
  dsimp only
  rw [if_neg (by omega), hd]
  rfl

/-- Concrete instance of `find_object_missing_dir` at the empty filesystem. -/
theorem find_object_missing_dir_witness :
    find_object ⟨[], []⟩ (pystr "ab") = .error .FileNotFoundError :=
  find_object_missing_dir ⟨[], []⟩ (pystr "ab") (by decide) (by decide)

/-- C6 counterexample: with prefix "cd" over the empty filesystem the result
is the `FileNotFoundError` filesystem error, not `NotFound`. -/
theorem find_object_missing_dir_cex :
    find_object ⟨[], []⟩ (pystr "cd") = .error .FileNotFoundError ∧
    find_object ⟨[], []⟩ (pystr "cd") ≠ .error .NotFound := by
  refine ⟨rfl, fun h => ?_⟩
  rw [show find_object ⟨[], []⟩ (pystr "cd") = .error .FileNotFoundError from rfl] at h
  exact Err.noConfusion (Except.error.inj h)

/-! ## Claims C3 and C4 -/

/-- A 12-byte index header claiming version 2 and one entry, with no entry
bytes; appending its own checksum yields a checksum-valid but truncated
stream. -/
def truncatedIndex : List Nat := pystr "DIRC" ++ [0, 0, 0, 2] ++ [0, 0, 0, 1]

/-- A minimal well-formed version-2 index body: the DIRC header declaring
one entry, then one 64-byte entry (ten zero metadata integers, a zero hash,
flags 1, path "a", one byte of NUL padding). -/
def oneEntryIndex : List Nat :=
  pystr "DIRC" ++ [0, 0, 0, 2] ++ [0, 0, 0, 1] ++ (List.replicate 60 0 ++ [0, 1] ++ [97, 0])

/-- C3 (code bug): a fully well-formed one-entry index stream with a valid
trailing checksum does not parse; `read_index` fails with the `TypeError`
raised by `entry_data.index('\x00', field_end)`, whose pattern is a `str`
where `bytes.index` requires an integer or bytes-like object. -/
theorem read_index_wellformed_typeerror :
    read_indexBytes (oneEntryIndex ++ sha1bytes oneEntryIndex) =
      .error .TypeErrorStrOnBytes := by
  rfl

/-- C4 (amended): on a checksum-valid version-2 stream whose remaining entry
bytes cannot hold a full 62-byte fixed record, the parsing loop silently
stops and the declared-count assertion fails with `IndexCountMismatch` —
not `IndexTruncated`. -/
theorem read_index_short_tail (data : List Nat)
    (hck : sha1bytes (data.take (data.length - 20)) = data.drop (data.length - 20))
    (hlen : 12 ≤ data.length)
    (hsig : data.take 4 = pystr "DIRC")
    (hver : be32at data 4 = 2)
    (hshort : ((data.take (data.length - 20)).drop 12).length ≤ 62)
    (hcnt : be32at data 8 ≠ 0) :
    read_indexBytes data = .error .IndexCountMismatch := by
  simp only [read_indexBytes, parseEntriesLoop]
  rw [if_neg (not_not_intro hck), if_neg (by omega), if_neg (not_not_intro hsig),
    if_neg (not_not_intro hver),
    if_neg (by omega : ¬ 0 + 62 < ((data.take (data.length - 20)).drop 12).length)]
  simp only [List.reverse_nil, List.length_nil]
  rw [if_neg hcnt]

/-- Concrete instance of `read_index_short_tail` on the truncated stream. -/
theorem read_index_short_tail_witness :
    read_indexBytes (truncatedIndex ++ sha1bytes truncatedIndex) =
      .error .IndexCountMismatch :=
  read_index_short_tail (truncatedIndex ++ sha1bytes truncatedIndex)
    (by decide) (by decide) (by decide) (by decide) (by decide) (by decide)

/-- C4 counterexample: the truncated one-entry stream fails with
`IndexCountMismatch`, not with the claimed `IndexTruncated`. -/
theorem read_index_truncated_cex :
    read_indexBytes (truncatedIndex ++ sha1bytes truncatedIndex) =
      .error .IndexCountMismatch ∧
    read_indexBytes (truncatedIndex ++ sha1bytes truncatedIndex) ≠
      .error .IndexTruncated := by
  refine ⟨by rfl, fun h => ?_⟩
  rw [show read_indexBytes (truncatedIndex ++ sha1bytes truncatedIndex) =
    .error .IndexCountMismatch from by rfl] at h
  exact Err.noConfusion (Except.error.inj h)

/-! ## Lexicographic string order: basic facts -/

theorem strLt_irrefl (a : PyStr) : strLt a a = false := by
  induction a with
  | nil => rfl
  | cons x xs ih => simp [strLt, ih]

theorem strLt_trichot (a b : PyStr) : strLt a b = true ∨ a = b ∨ strLt b a = true := by
  induction a generalizing b with
  | nil =>
    cases b with
    | nil => exact Or.inr (Or.inl rfl)
    | cons y ys => exact Or.inl rfl
  | cons x xs ih =>
    cases b with
    | nil => exact Or.inr (Or.inr rfl)
    | cons y ys =>
      rcases Nat.lt_trichotomy x y with h | h | h
      · exact Or.inl (by simp [strLt, h])
      · subst h
        rcases ih ys with h2 | h2 | h2
        · exact Or.inl (by simp [strLt, Nat.lt_irrefl, h2])
        · exact Or.inr (Or.inl (by rw [h2]))
        · exact Or.inr (Or.inr (by simp [strLt, Nat.lt_irrefl, h2]))
      · exact Or.inr (Or.inr (by simp [strLt, h]))

theorem strLt_asymm (a b : PyStr) (h : strLt a b = true) : strLt b a = false := by
  induction a generalizing b with
  | nil =>
    cases b with
    | nil => exact absurd h (by simp [strLt])
    | cons y ys => rfl
  | cons x xs ih =>
    cases b with
    | nil => exact absurd h (by simp [strLt])
    | cons y ys =>
      by_cases hxy : x < y
      · simp [strLt, hxy, Nat.lt_asymm hxy]
      · by_cases hyx : y < x
        · rw [strLt, if_neg hxy, if_pos hyx] at h
          exact absurd h (by simp)
        · have hxe : x = y := Nat.le_antisymm (Nat.not_lt.mp hyx) (Nat.not_lt.mp hxy)
          subst hxe
          rw [strLt, if_neg hxy, if_neg hxy] at h
          simp [strLt, hxy, ih ys h]

theorem strLt_trans (a b c : PyStr) (h1 : strLt a b = true) (h2 : strLt b c = true) :
    strLt a c = true := by
  induction a generalizing b c with
  | nil =>
    cases c with
    | nil =>
      cases b with
      | nil => exact h1
      | cons y ys => exact absurd h2 (by simp [strLt])
    | cons z zs => rfl
  | cons x xs ih =>
    cases b with
    | nil => exact absurd h1 (by simp [strLt])
    | cons y ys =>
      cases c with
      | nil => exact absurd h2 (by simp [strLt])
      | cons z zs =>
        by_cases hxy : x < y
        · by_cases hyz : y < z
          · simp [strLt, Nat.lt_trans hxy hyz]
          · by_cases hzy : z < y
            · rw [strLt, if_neg hyz, if_pos hzy] at h2
              exact absurd h2 (by simp)
            · have : y = z := Nat.le_antisymm (Nat.not_lt.mp hzy) (Nat.not_lt.mp hyz)
              subst this
              simp [strLt, hxy]
        · by_cases hyx : y < x
          · rw [strLt, if_neg hxy, if_pos hyx] at h1
            exact absurd h1 (by simp)
          · have hxe : x = y := Nat.le_antisymm (Nat.not_lt.mp hyx) (Nat.not_lt.mp hxy)
            subst hxe
            rw [strLt, if_neg hxy, if_neg hxy] at h1
            by_cases hyz : x < z
            · simp [strLt, hyz]
            · by_cases hzy : z < x
              · rw [strLt, if_neg hyz, if_pos hzy] at h2
                exact absurd h2 (by simp)
              · have : x = z := Nat.le_antisymm (Nat.not_lt.mp hzy) (Nat.not_lt.mp hyz)
                subst this
                rw [strLt, if_neg hyz, if_neg hyz] at h2
                simp [strLt, hyz, ih ys zs h1 h2]

theorem strLe_total (a b : PyStr) : strLe a b = true ∨ strLe b a = true := by
  unfold strLe
  rcases strLt_trichot a b with h | h | h
  · left
    rw [strLt_asymm a b h]
    rfl
  · subst h
    left
    rw [strLt_irrefl]
    rfl
  · right
    rw [strLt_asymm b a h]
    rfl

theorem strLe_trans (a b c : PyStr) (h1 : strLe a b = true) (h2 : strLe b c = true) :
    strLe a c = true := by
  unfold strLe at *
  rw [Bool.not_eq_true'] at h1 h2 ⊢
  by_contra hca
  have hca' : strLt c a = true := by
    cases hcc : strLt c a with
    | true => rfl
    | false => exact absurd hcc hca
  rcases strLt_trichot b c with h | h | h
  · have := strLt_trans b c a h hca'
    rw [this] at h1
    exact Bool.noConfusion h1
  · subst h
    rw [hca'] at h1
    exact Bool.noConfusion h1
  · rw [h] at h2
    exact Bool.noConfusion h2

/-! ## Insertion sort: membership and sortedness -/

theorem mem_insertSorted (x y : PyStr) (l : List PyStr) :
    y ∈ insertSorted x l ↔ y = x ∨ y ∈ l := by
  induction l with
  | nil => simp [insertSorted]
  | cons z zs ih =>
    unfold insertSorted
    by_cases h : strLe x z = true
    · rw [if_pos h]
      simp [List.mem_cons]
    · rw [if_neg h, List.mem_cons, ih, List.mem_cons]
      tauto

theorem sorted_insertSorted (x : PyStr) (l : List PyStr)
    (hl : l.Pairwise (fun a b => strLe a b = true)) :
    (insertSorted x l).Pairwise (fun a b => strLe a b = true) := by
  induction l with
  | nil => simp [insertSorted]
  | cons z zs ih =>
    rcases List.pairwise_cons.mp hl with ⟨hz, hzs⟩
    unfold insertSorted
    by_cases h : strLe x z = true
    · rw [if_pos h]
      refine List.pairwise_cons.mpr ⟨?_, hl⟩
      intro b hb
      rcases List.mem_cons.mp hb with rfl | hb'
      · exact h
      · exact strLe_trans x z b h (hz b hb')
    · rw [if_neg h]
      have hzx : strLe z x = true := (strLe_total x z).resolve_left h
      refine List.pairwise_cons.mpr ⟨?_, ih hzs⟩
      intro b hb
      rcases (mem_insertSorted x b zs).mp hb with rfl | hb'
      · exact hzx
      · exact hz b hb'

theorem mem_sortStrs (y : PyStr) (l : List PyStr) : y ∈ sortStrs l ↔ y ∈ l := by
  induction l with
  | nil => simp [sortStrs]
  | cons x xs ih => simp [sortStrs, mem_insertSorted, ih]

theorem sorted_sortStrs (l : List PyStr) :
    (sortStrs l).Pairwise (fun a b => strLe a b = true) := by
  induction l with
  | nil => simp [sortStrs]
  | cons x xs ih => exact sorted_insertSorted x _ ih

/-! ## The index dictionary under unique paths -/

theorem entriesByPath_eq_some (entries : List IndexEntry) (e : IndexEntry)
    (hnd : (entries.map IndexEntry.path).Nodup) (he : e ∈ entries) :
    entriesByPath entries e.path = some e := by
  induction entries with
  | nil => exact absurd he (List.not_mem_nil e)
  | cons a rest ih =>
    rcases List.nodup_cons.mp hnd with ⟨hna, hnd'⟩
    unfold entriesByPath
    rw [List.reverse_cons, List.find?_append]
    rcases List.mem_cons.mp he with rfl | he'
    · have hnone : rest.reverse.find? (fun x => decide (x.path = e.path)) = none := by
        rw [List.find?_eq_none]
        intro x hx
        simp only [decide_eq_true_eq]
        intro hpe
        exact hna (List.mem_map.mpr ⟨x, List.mem_reverse.mp hx, hpe⟩)
      rw [hnone]
      simp [List.find?]
    · have := ih hnd' he'
      unfold entriesByPath at this
      rw [this]
      rfl

theorem recordedHex_eq (entries : List IndexEntry) (e : IndexEntry)
    (hnd : (entries.map IndexEntry.path).Nodup) (he : e ∈ entries) :
    recordedHex entries e.path = bytesToHex e.sha1 := by
  unfold recordedHex
  rw [entriesByPath_eq_some entries e hnd he]

/-! ## Claim C2 -/

theorem contains_dedup_iff (l : List PyStr) (p : PyStr) :
    l.dedup.contains p = true ↔ p ∈ l :=
  List.elem_iff.trans List.mem_dedup

theorem get_status_eq (entries : List IndexEntry) (tree : List (PyStr × List Nat)) :
    get_status entries tree =
      (sortStrs ((tree.map Prod.fst).dedup.filter fun p =>
          (entries.map IndexEntry.path).dedup.contains p &&
            decide (hashObjectSha1 blobS (treeContent tree p) ≠ recordedHex entries p)),
        sortStrs ((tree.map Prod.fst).dedup.filter fun p =>
          ! (entries.map IndexEntry.path).dedup.contains p),
        sortStrs ((entries.map IndexEntry.path).dedup.filter fun p =>
          ! (tree.map Prod.fst).dedup.contains p)) := rfl

/-- C2: on an index-entry list with unique paths and any working-tree
snapshot, `get_status` returns `changed` as exactly the common paths whose
current content hash differs from the entry's recorded hash, `new` as
exactly the tree paths absent from the index, `deleted` as exactly the index
paths absent from the tree, and all three outputs sorted lexicographically. -/
theorem get_status_spec (entries : List IndexEntry) (tree : List (PyStr × List Nat))
    (p : PyStr) (hidx : (entries.map IndexEntry.path).Nodup) :
    (p ∈ (get_status entries tree).1 ↔
      p ∈ tree.map Prod.fst ∧ ∃ e ∈ entries, e.path = p ∧
        hashObjectSha1 blobS (treeContent tree p) ≠ bytesToHex e.sha1) ∧
    (p ∈ (get_status entries tree).2.1 ↔
      p ∈ tree.map Prod.fst ∧ p ∉ entries.map IndexEntry.path) ∧
    (p ∈ (get_status entries tree).2.2 ↔
      p ∈ entries.map IndexEntry.path ∧ p ∉ tree.map Prod.fst) ∧
    (get_status entries tree).1.Pairwise (fun a b => strLe a b = true) ∧
    (get_status entries tree).2.1.Pairwise (fun a b => strLe a b = true) ∧
    (get_status entries tree).2.2.Pairwise (fun a b => strLe a b = true) := by
  rw [get_status_eq]
  refine ⟨?_, ?_, ?_, sorted_sortStrs _, sorted_sortStrs _, sorted_sortStrs _⟩
  · rw [mem_sortStrs, List.mem_filter, List.mem_dedup, Bool.and_eq_true, decide_eq_true_eq]
    constructor
    · rintro ⟨hp, hc, hne⟩
      refine ⟨hp, ?_⟩
      rcases List.mem_map.mp ((contains_dedup_iff _ _).mp hc) with ⟨e, he, hep⟩
      have hrec : recordedHex entries p = bytesToHex e.sha1 := by
        rw [← hep]
        exact recordedHex_eq entries e hidx he
      exact ⟨e, he, hep, fun hEq => hne (hEq.trans hrec.symm)⟩
    · rintro ⟨hp, e, he, hep, hne⟩
      have hrec : recordedHex entries p = bytesToHex e.sha1 := by
        rw [← hep]
        exact recordedHex_eq entries e hidx he
      exact ⟨hp, (contains_dedup_iff _ _).mpr (List.mem_map.mpr ⟨e, he, hep⟩),
        fun hEq => hne (hEq.trans hrec)⟩
  · rw [mem_sortStrs, List.mem_filter, List.mem_dedup, Bool.not_eq_true']
    constructor
    · rintro ⟨hp, hc⟩
      refine ⟨hp, fun hm => ?_⟩
      rw [(contains_dedup_iff _ _).mpr hm] at hc
      exact Bool.noConfusion hc
    · rintro ⟨hp, hm⟩
      refine ⟨hp, ?_⟩
      cases hcc : (entries.map IndexEntry.path).dedup.contains p with
      | false => rfl
      | true => exact absurd ((contains_dedup_iff _ _).mp hcc) hm
  · rw [mem_sortStrs, List.mem_filter, List.mem_dedup, Bool.not_eq_true']
    constructor
    · rintro ⟨hp, hc⟩
      refine ⟨hp, fun hm => ?_⟩
      rw [(contains_dedup_iff _ _).mpr hm] at hc
      exact Bool.noConfusion hc
    · rintro ⟨hp, hm⟩
      refine ⟨hp, ?_⟩
      cases hcc : (tree.map Prod.fst).dedup.contains p with
      | false => rfl
      | true => exact absurd ((contains_dedup_iff _ _).mp hcc) hm

/-- An index holding `b.txt` (hash all zeros) and `d.txt`, for the C2
witness. -/
def entriesW : List IndexEntry :=
  [⟨0, 0, 0, 0, 0, 0, 0, 0, 0, 0, List.replicate 20 0, 1, pystr "b.txt"⟩,
    ⟨0, 0, 0, 0, 0, 0, 0, 0, 0, 0, List.replicate 20 0, 1, pystr "d.txt"⟩]

/-- A snapshot holding `b.txt` (content `h`) and `c.txt`, for the C2
witness. -/
def treeW : List (PyStr × List Nat) := [(pystr "b.txt", [104]), (pystr "c.txt", [105])]

/-- Concrete instance of `get_status_spec` at the path `b.txt`, whose
content hash differs from its zero recorded hash. -/
theorem get_status_spec_witness :
    (entriesW.map IndexEntry.path).Nodup ∧
    ((pystr "b.txt" ∈ (get_status entriesW treeW).1 ↔
      pystr "b.txt" ∈ treeW.map Prod.fst ∧ ∃ e ∈ entriesW, e.path = pystr "b.txt" ∧
        hashObjectSha1 blobS (treeContent treeW (pystr "b.txt")) ≠ bytesToHex e.sha1) ∧
    (pystr "b.txt" ∈ (get_status entriesW treeW).2.1 ↔
      pystr "b.txt" ∈ treeW.map Prod.fst ∧
        pystr "b.txt" ∉ entriesW.map IndexEntry.path) ∧
    (pystr "b.txt" ∈ (get_status entriesW treeW).2.2 ↔
      pystr "b.txt" ∈ entriesW.map IndexEntry.path ∧
        pystr "b.txt" ∉ treeW.map Prod.fst) ∧
    (get_status entriesW treeW).1.Pairwise (fun a b => strLe a b = true) ∧
    (get_status entriesW treeW).2.1.Pairwise (fun a b => strLe a b = true) ∧
    (get_status entriesW treeW).2.2.Pairwise (fun a b => strLe a b = true)) :=
  ⟨by decide, get_status_spec entriesW treeW (pystr "b.txt") (by decide)⟩

/-! ## Decimal digits: shape, range and parse round-trip -/

theorem natDigitsAux_eq_append (fuel n : Nat) (acc : List Nat) :
    natDigitsAux fuel n acc = natDigitsAux fuel n [] ++ acc := by
  induction fuel generalizing n acc with
  | zero => rfl
  | succ fuel ih =>
    unfold natDigitsAux
    by_cases h : n < 10
    · rw [if_pos h, if_pos h]
      rfl
    · rw [if_neg h, if_neg h, ih (n / 10) ((48 + n % 10) :: acc), ih (n / 10) [48 + n % 10],
        List.append_assoc]
      rfl

theorem natDigitsAux_fuel_inv (n : Nat) : ∀ (fuel1 fuel2 : Nat) (acc : List Nat),
    n < fuel1 → n < fuel2 → natDigitsAux fuel1 n acc = natDigitsAux fuel2 n acc := by
  induction n using Nat.strong_induction_on with
  | _ n ih =>
    intro fuel1 fuel2 acc h1 h2
    cases fuel1 with
    | zero => omega
    | succ f1 =>
      cases fuel2 with
      | zero => omega
      | succ f2 =>
        unfold natDigitsAux
        by_cases h10 : n < 10
        · rw [if_pos h10, if_pos h10]
        · rw [if_neg h10, if_neg h10]
          have hlt : n / 10 < n := Nat.div_lt_self (by omega) (by omega)
          exact ih (n / 10) hlt f1 f2 _ (by omega) (by omega)

theorem natDigits_lt10 (n : Nat) (h : n < 10) : natDigits n = [48 + n] := by
  unfold natDigits natDigitsAux
  rw [if_pos h]

theorem natDigits_ge10 (n : Nat) (h : 10 ≤ n) :
    natDigits n = natDigits (n / 10) ++ [48 + n % 10] := by
  have hlt : n / 10 < n := Nat.div_lt_self (by omega) (by omega)
  unfold natDigits
  conv_lhs => rw [natDigitsAux]
  rw [if_neg (by omega)]
  rw [natDigitsAux_fuel_inv (n / 10) n (n / 10 + 1) _ (by omega) (by omega)]
  exact natDigitsAux_eq_append (n / 10 + 1) (n / 10) [48 + n % 10]

theorem natDigits_mem_range (n : Nat) : ∀ b ∈ natDigits n, 48 ≤ b ∧ b ≤ 57 := by
  induction n using Nat.strong_induction_on with
  | _ n ih =>
    by_cases h : n < 10
    · rw [natDigits_lt10 n h]
      intro b hb
      simp only [List.mem_singleton] at hb
      omega
    · rw [natDigits_ge10 n (by omega)]
      intro b hb
      rcases List.mem_append.mp hb with hb | hb
      · exact ih (n / 10) (Nat.div_lt_self (by omega) (by omega)) b hb
      · simp only [List.mem_singleton] at hb
        have : n % 10 < 10 := Nat.mod_lt _ (by omega)
        omega

theorem natDigits_ne_nil (n : Nat) : natDigits n ≠ [] := by
  by_cases h : n < 10
  · rw [natDigits_lt10 n h]
    simp
  · rw [natDigits_ge10 n (by omega)]
    simp

theorem pyInt_natDigits (n : Nat) : pyInt (natDigits n) = some n := by
  have hfold : ∀ m, (natDigits m).foldl (fun acc b => acc * 10 + (b - 48)) 0 = m := by
    intro m
    induction m using Nat.strong_induction_on with
    | _ m ih =>
      by_cases h : m < 10
      · rw [natDigits_lt10 m h]
        simp
      · rw [natDigits_ge10 m (by omega), List.foldl_append,
          ih (m / 10) (Nat.div_lt_self (by omega) (by omega))]
        simp only [List.foldl_cons, List.foldl_nil]
        omega
  have hall : (natDigits n).all (fun b => 48 ≤ b ∧ b ≤ 57) = true := by
    rw [List.all_eq_true]
    intro b hb
    exact decide_eq_true (natDigits_mem_range n b hb)
  unfold pyInt
  rw [if_pos ⟨natDigits_ne_nil n, hall⟩, hfold n]

theorem natDigits_no_space (n : Nat) : ∀ b ∈ natDigits n, isPySpace b = false := by
  intro b hb
  have h := natDigits_mem_range n b hb
  unfold isPySpace
  have h32 : (decide (b = 32)) = false := decide_eq_false (by omega)
  have h9 : (decide (b = 9)) = false := decide_eq_false (by omega)
  have h10 : (decide (b = 10)) = false := decide_eq_false (by omega)
  have h11 : (decide (b = 11)) = false := decide_eq_false (by omega)
  have h12 : (decide (b = 12)) = false := decide_eq_false (by omega)
  have h13 : (decide (b = 13)) = false := decide_eq_false (by omega)
  rw [h32, h9, h10, h11, h12, h13]
  rfl

/-! ## `str.split()` on a two-word header -/

theorem pySplitAux_no_space (l : List Nat) : ∀ (cur : List Nat), l ≠ [] →
    (∀ b ∈ l, isPySpace b = false) → pySplitAux l cur = [cur.reverse ++ l] := by
  induction l with
  | nil => intro cur hne _; exact absurd rfl hne
  | cons b rest ih =>
    intro cur _ hns
    unfold pySplitAux
    rw [show isPySpace b = false from hns b (List.mem_cons_self b rest)]
    show pySplitAux rest (b :: cur) = _
    by_cases hrest : rest = []
    · subst hrest
      unfold pySplitAux
      simp
    · rw [ih (b :: cur) hrest (fun x hx => hns x (List.mem_cons_of_mem b hx))]
      simp

theorem pySplitAux_word (w v : List Nat) (hv : ∀ b ∈ v, isPySpace b = false)
    (hvne : v ≠ []) : ∀ (cur : List Nat), (∀ b ∈ w, isPySpace b = false) →
    (cur ≠ [] ∨ w ≠ []) → pySplitAux (w ++ 32 :: v) cur = [cur.reverse ++ w, v] := by
  induction w with
  | nil =>
    intro cur _ hne
    have hcur : cur ≠ [] := hne.resolve_right (fun h => h rfl)
    simp only [List.nil_append]
    unfold pySplitAux
    rw [show isPySpace 32 = true from rfl]
    show (if cur.isEmpty then pySplitAux v [] else cur.reverse :: pySplitAux v []) = _
    rw [if_neg (by simpa [List.isEmpty_iff] using hcur)]
    rw [pySplitAux_no_space v [] hvne hv]
    simp
  | cons b w' ih =>
    intro cur hw _
    simp only [List.cons_append]
    unfold pySplitAux
    rw [show isPySpace b = false from hw b (List.mem_cons_self b w')]
    show pySplitAux (w' ++ 32 :: v) (b :: cur) = _
    rw [ih (b :: cur) (fun x hx => hw x (List.mem_cons_of_mem b hx)) (Or.inl (by simp))]
    simp

theorem pySplit_header (w v : List Nat) (hw : ∀ b ∈ w, isPySpace b = false)
    (hv : ∀ b ∈ v, isPySpace b = false) (hwne : w ≠ []) (hvne : v ≠ []) :
    pySplit (w ++ 32 :: v) = [w, v] := by
  unfold pySplit
  rw [pySplitAux_word w v hv hvne [] hw (Or.inr hwne)]
  rfl

/-! ## `bytes.index` on a header-framed buffer -/

theorem byteIndexAux_append (h : List Nat) (t : List Nat) (hh : ∀ b ∈ h, b ≠ 0) :
    ∀ (i : Nat), byteIndexAux 0 (h ++ 0 :: t) i = some (i + h.length) := by
  induction h with
  | nil =>
    intro i
    simp [byteIndexAux]
  | cons b rest ih =>
    intro i
    simp only [List.cons_append]
    unfold byteIndexAux
    rw [if_neg (hh b (List.mem_cons_self b rest))]
    rw [ih (fun x hx => hh x (List.mem_cons_of_mem b hx)) (i + 1)]
    congr 1
    simp
    omega

theorem byteIndex_header (h t : List Nat) (hh : ∀ b ∈ h, b ≠ 0) :
    byteIndex (h ++ 0 :: t) 0 = some h.length := by
  unfold byteIndex
  rw [byteIndexAux_append h t hh 0]
  simp

/-! ## Header facts for the three object kinds -/

theorem kind_facts (kind : PyStr)
    (hk : kind = pystr "blob" ∨ kind = pystr "tree" ∨ kind = pystr "commit") :
    kind ≠ [] ∧ ∀ b ∈ kind, b ≠ 0 ∧ b < 128 ∧ isPySpace b = false := by
  rcases hk with rfl | rfl | rfl <;> exact ⟨by decide, by decide⟩

theorem objHeader_no_zero (kind : PyStr) (data : List Nat)
    (hk : ∀ b ∈ kind, b ≠ 0 ∧ b < 128 ∧ isPySpace b = false) :
    ∀ b ∈ objHeader kind data, b ≠ 0 := by
  intro b hb
  unfold objHeader at hb
  rcases List.mem_append.mp hb with hb | hb
  · exact (hk b hb).1
  · rcases List.mem_cons.mp hb with rfl | hb
    · omega
    · have := natDigits_mem_range data.length b hb
      omega

theorem pyDecode_objHeader (kind : PyStr) (data : List Nat)
    (hk : ∀ b ∈ kind, b ≠ 0 ∧ b < 128 ∧ isPySpace b = false) :
    pyDecode (objHeader kind data) = some (objHeader kind data) := by
  unfold pyDecode
  rw [if_pos ?_]
  rw [List.all_eq_true]
  intro b hb
  refine decide_eq_true ?_
  unfold objHeader at hb
  rcases List.mem_append.mp hb with hb | hb
  · exact (hk b hb).2.1
  · rcases List.mem_cons.mp hb with rfl | hb
    · omega
    · have := natDigits_mem_range data.length b hb
      omega

theorem pySplit_objHeader (kind : PyStr) (data : List Nat) (hne : kind ≠ [])
    (hk : ∀ b ∈ kind, b ≠ 0 ∧ b < 128 ∧ isPySpace b = false) :
    pySplit (objHeader kind data) = [kind, natDigits data.length] := by
  unfold objHeader
  exact pySplit_header kind (natDigits data.length) (fun b hb => (hk b hb).2.2)
    (natDigits_no_space data.length) hne (natDigits_ne_nil data.length)

/-! ## Directory-listing facts -/

theorem childName_eq (d p : Path) (nm : PyStr) (h : childName d p = some nm) :
    p = d ++ [nm] := by
  unfold childName at h
  by_cases hd : p.dropLast = d
  · rw [if_pos hd] at h
    rw [← hd]
    exact (List.dropLast_append_getLast? nm h).symm
  · rw [if_neg hd] at h
    exact Option.noConfusion h

theorem childName_self (d : Path) (nm : PyStr) : childName d (d ++ [nm]) = some nm := by
  unfold childName
  rw [if_pos List.dropLast_concat]
  exact List.getLast?_concat d

theorem mem_addDirStep (ds : List Path) (q x : Path) :
    x ∈ addDirStep ds q ↔ x ∈ ds ∨ x = q := by
  unfold addDirStep
  by_cases h : ds.contains q = true
  · rw [if_pos h]
    constructor
    · exact Or.inl
    · rintro (hx | rfl)
      · exact hx
      · exact List.elem_iff.mp h
  · rw [if_neg h]
    simp [List.mem_append]

theorem mem_makedirs (fs : FS) (p : Path) (x : Path) :
    x ∈ (fs.makedirs p).dirs ↔ x ∈ fs.dirs ∨ ∃ i < p.length, x = p.take (i + 1) := by
  have hfold : ∀ (l : List Nat) (ds : List Path),
      x ∈ l.foldl (fun ds i => addDirStep ds (p.take (i + 1))) ds ↔
        x ∈ ds ∨ ∃ i ∈ l, x = p.take (i + 1) := by
    intro l
    induction l with
    | nil => simp
    | cons j js ih =>
      intro ds
      rw [List.foldl_cons, ih, mem_addDirStep]
      constructor
      · rintro (⟨hx | rfl⟩ | ⟨i, hi, rfl⟩)
        · exact Or.inl hx
        · exact Or.inr ⟨j, List.mem_cons_self j js, rfl⟩
        · exact Or.inr ⟨i, List.mem_cons_of_mem j hi, rfl⟩
      · rintro (hx | ⟨i, hi, rfl⟩)
        · exact Or.inl (Or.inl hx)
        · rcases List.mem_cons.mp hi with rfl | hi'
          · exact Or.inl (Or.inr rfl)
          · exact Or.inr ⟨i, hi', rfl⟩
  unfold FS.makedirs
  dsimp only
  rw [hfold (List.range p.length) fs.dirs]
  simp [List.mem_range]

theorem storeOK_files (fs : FS) (h : fs.storeOK = true) (c nm : PyStr)
    (hm : [gitS, objectsS, c, nm] ∈ fs.files.map Prod.fst) : nm.length = 38 := by
  unfold FS.storeOK at h
  rw [Bool.and_eq_true] at h
  rcases List.mem_map.mp hm with ⟨pr, hpr, hfst⟩
  have hok := (List.all_eq_true.mp h.1) pr hpr
  rw [hfst] at hok
  unfold objNameOK at hok
  simpa using hok

theorem storeOK_dirs (fs : FS) (h : fs.storeOK = true) (c nm : PyStr)
    (hm : [gitS, objectsS, c, nm] ∈ fs.dirs) : False := by
  unfold FS.storeOK at h
  rw [Bool.and_eq_true] at h
  have hok := (List.all_eq_true.mp h.2) _ hm
  unfold noObjSubdir at hok
  simp at hok

theorem filter_eq_singleton_of (l : List PyStr) (a : PyStr) (pred : PyStr → Bool)
    (hnd : l.Nodup) (ha : a ∈ l) (hpa : pred a = true)
    (huniq : ∀ x ∈ l, pred x = true → x = a) :
    l.filter pred = [a] := by
  induction l with
  | nil => exact absurd ha (List.not_mem_nil a)
  | cons y ys ih =>
    rcases List.nodup_cons.mp hnd with ⟨hy, hys⟩
    rcases List.mem_cons.mp ha with rfl | ha'
    · have hnil : ys.filter pred = [] := by
        rw [List.filter_eq_nil_iff]
        intro x hx hpx
        rw [huniq x (List.mem_cons_of_mem a hx) hpx] at hx
        exact hy hx
      rw [List.filter_cons, if_pos (by rw [hpa]), hnil]
    · have hpy : pred y = false := by
        cases hpy : pred y with
        | false => rfl
        | true =>
          rw [huniq y (List.mem_cons_self y ys) hpy] at hy
          exact absurd ha' hy
      rw [List.filter_cons, if_neg (by rw [hpy]; simp)]
      exact ih hys ha' (fun x hx hpx => huniq x (List.mem_cons_of_mem y hx) hpx)

/-! ## Claim C1 -/

theorem hash_object_write_fresh (zc : List Nat → List Nat) (fs : FS) (data : List Nat)
    (kind : PyStr)
    (hfresh : fs.exists (objPath (sha1hex (fullData kind data))) = false) :
    hash_object zc fs data kind true =
      (sha1hex (fullData kind data),
        { fs.makedirs (objPath (sha1hex (fullData kind data))).dropLast with
          files := (objPath (sha1hex (fullData kind data)),
            zc (fullData kind data)) :: fs.files }) := by
  unfold hash_object
  dsimp only
  rw [hfresh]
  simp
  rfl

theorem find_object_ok_names (fs : FS) (pre : PyStr) (names : List PyStr)
    (h2 : 2 ≤ pre.length)
    (hld : fs.listdir [gitS, objectsS, pre.take 2] = .ok names) :
    find_object fs pre =
      (match names.filter (fun nm => (pre.drop 2).isPrefixOf nm) with
        | [] => .error .NotFound
        | [x] => .ok ([gitS, objectsS, pre.take 2] ++ [x])
        | _ :: _ :: _ => .error .AmbiguousAddress) := by
  unfold find_object
  rw [if_neg (by omega)]
  dsimp only
  rw [hld]

theorem find_object_fresh_store (fs : FS) (s : PyStr) (bytes : List Nat)
    (hlen : s.length = 40) (hstore : fs.storeOK = true) :
    find_object
      { fs.makedirs (objPath s).dropLast with files := (objPath s, bytes) :: fs.files } s =
      .ok (objPath s) := by
  have hrestlen : (s.drop 2).length = 38 := by
    rw [List.length_drop, hlen]
  have hdir : (fs.makedirs [gitS, objectsS, s.take 2]).dirs.contains
      [gitS, objectsS, s.take 2] = true := by
    refine List.elem_iff.mpr ?_
    rw [mem_makedirs]
    refine Or.inr ⟨2, by simp, ?_⟩
    rfl
  have hld : FS.listdir
      { fs.makedirs (objPath s).dropLast with files := (objPath s, bytes) :: fs.files }
      [gitS, objectsS, s.take 2] =
      .ok ((((objPath s, bytes) :: fs.files).map Prod.fst).filterMap
          (childName [gitS, objectsS, s.take 2]) ++
        (fs.makedirs [gitS, objectsS, s.take 2]).dirs.filterMap
          (childName [gitS, objectsS, s.take 2])).dedup := by
    unfold FS.listdir
    rw [show ({ fs.makedirs (objPath s).dropLast with
        files := (objPath s, bytes) :: fs.files } : FS).dirs.contains
        [gitS, objectsS, s.take 2] = true from hdir]
    rw [if_pos rfl]
    rfl
  rw [find_object_ok_names _ s _ (by omega) hld]
  have hsingle :
      ((((objPath s, bytes) :: fs.files).map Prod.fst).filterMap
          (childName [gitS, objectsS, s.take 2]) ++
        (fs.makedirs [gitS, objectsS, s.take 2]).dirs.filterMap
          (childName [gitS, objectsS, s.take 2])).dedup.filter
        (fun nm => (s.drop 2).isPrefixOf nm) = [s.drop 2] := by
    refine filter_eq_singleton_of _ _ _ (List.nodup_dedup _) ?_ ?_ ?_
    · rw [List.mem_dedup]
      refine List.mem_append.mpr (Or.inl ?_)
      refine List.mem_filterMap.mpr ⟨objPath s, ?_, ?_⟩
      · simp
      · exact childName_self [gitS, objectsS, s.take 2] (s.drop 2)
    · exact List.isPrefixOf_iff_prefix.mpr (List.prefix_refl _)
    · intro x hx hpx
      have hpre : s.drop 2 <+: x := List.isPrefixOf_iff_prefix.mp hpx
      rw [List.mem_dedup] at hx
      rcases List.mem_append.mp hx with hx | hx
      · rcases List.mem_filterMap.mp hx with ⟨fp, hfp, hcn⟩
        rcases List.mem_cons.mp (by simpa using hfp :
            fp ∈ objPath s :: fs.files.map Prod.fst) with rfl | hfp'
        · have := (childName_self [gitS, objectsS, s.take 2] (s.drop 2)).symm.trans hcn
          exact (Option.some.inj this).symm
        · have hfp4 : fp = [gitS, objectsS, s.take 2, x] := childName_eq _ _ _ hcn
          have hx38 : x.length = 38 := storeOK_files fs hstore (s.take 2) x (hfp4 ▸ hfp')
          exact (hpre.eq_of_length (by omega)).symm
      · rcases List.mem_filterMap.mp hx with ⟨dd, hdd, hcn⟩
        have hdd4 : dd = [gitS, objectsS, s.take 2, x] := childName_eq _ _ _ hcn
        rw [mem_makedirs] at hdd
        rcases hdd with hdd | ⟨i, hi, hdd⟩
        · exact absurd (hdd4 ▸ hdd) (fun hm => storeOK_dirs fs hstore (s.take 2) x hm)
        · exfalso
          have h4 : dd.length = 4 := by rw [hdd4]; rfl
          have hle : dd.length ≤ 3 := by
            rw [hdd, List.length_take]
            exact min_le_right _ _
          omega
  rw [hsingle]
  rfl

/-- C1: for any of the three object kinds and any payload, reading back (by
its full address) the object just written by `hash_object` recovers exactly
the original `(kind, payload)` pair, provided the stored address was fresh,
the store is well-formed, and zlib decompression inverts compression on the
stored record. -/
theorem hash_object_read_object_roundtrip (zc zd : List Nat → List Nat) (fs : FS)
    (kind : PyStr) (data : List Nat)
    (hkind : kind = pystr "blob" ∨ kind = pystr "tree" ∨ kind = pystr "commit")
    (hstore : fs.storeOK = true)
    (hfresh : fs.exists (objPath (sha1hex (fullData kind data))) = false)
    (hz : zd (zc (fullData kind data)) = fullData kind data) :
    read_object zd (hash_object zc fs data kind true).2
      ((hash_object zc fs data kind true).1) = .ok (kind, data) := by
  obtain ⟨hkne, hkb⟩ := kind_facts kind hkind
  rw [hash_object_write_fresh zc fs data kind hfresh]
  unfold read_object
  rw [find_object_fresh_store fs (sha1hex (fullData kind data)) (zc (fullData kind data))
    (length_sha1hex _) hstore]
  dsimp only
  rw [if_neg (show ¬ (objPath (sha1hex (fullData kind data))).isEmpty = true by
    simp [objPath])]
  unfold FS.readFile
  rw [lookup_cons_self]
  dsimp only
  rw [hz]
  rw [show fullData kind data = objHeader kind data ++ 0 :: data from rfl]
  rw [byteIndex_header _ _ (objHeader_no_zero kind data hkb)]
  dsimp only
  rw [List.take_left]
  rw [pyDecode_objHeader kind data hkb]
  dsimp only
  rw [pySplit_objHeader kind data hkne hkb]
  dsimp only
  rw [pyInt_natDigits data.length]
  dsimp only
  have hdrop : (objHeader kind data ++ 0 :: data).drop ((objHeader kind data).length + 1) =
      data := by
    rw [show objHeader kind data ++ 0 :: data = (objHeader kind data ++ [0]) ++ data by simp]
    rw [show (objHeader kind data).length + 1 = (objHeader kind data ++ [0]).length by simp]
    exact List.drop_left _ _
  rw [hdrop]
  rw [if_pos rfl]

/-- Concrete instance of `hash_object_read_object_roundtrip`: the empty blob
written into an empty filesystem reads back as `(blob, b'')` (with the
identity standing in for the zlib compressor pair). -/
theorem hash_object_read_object_roundtrip_witness :
    read_object id (hash_object id ⟨[], []⟩ [] (pystr "blob") true).2
      ((hash_object id ⟨[], []⟩ [] (pystr "blob") true).1) = .ok (pystr "blob", []) :=
  hash_object_read_object_roundtrip id id ⟨[], []⟩ (pystr "blob") []
    (Or.inl rfl) (by decide) (by decide) rfl

end Pygit
